import Mathlib

/-!
Shallow embedding of the Dashboard Visualization & Export Engine of the
ML-forecasting dashboard (`website/script.js`), together with theorems
settling the specification claims about it.

Conventions of the embedding:
* JS numbers are modelled as exact rationals `ℚ`; `Math.round` is
  `jsRound` (floor of `x + 1/2`, i.e. round half toward `+∞`, which is
  exactly JS `Math.round` semantics).
* A JS `NaN`/`undefined` arising from an out-of-range array index is
  modelled as `none : Option ℚ`; every JS comparison against `NaN` is
  false, which `inBin` reproduces.
* `parseInt(field) || default` is modelled by `jsOrInt`: a failed parse
  (`NaN`, i.e. `none`) or a parsed value `0` (falsy) both yield the
  default.
* Strings are modelled as `List Char` where the CSV export is concerned,
  so that joining and splitting are fully executable.
-/

namespace MLForecast

/-- JS `Math.round`: round half toward positive infinity. -/
def jsRound (x : ℚ) : ℤ := ⌊x + 1/2⌋

/-- `parseInt(v) || d` — `none` models a `NaN` parse result; a parsed `0`
is falsy and also falls back to the default (script.js lines 473–475). -/
def jsOrInt (v : Option ℤ) (d : ℤ) : ℤ :=
  match v with
  | none => d
  | some n => if n = 0 then d else n

/-- The object passed to `displayPredictionResult` (script.js lines 488–496). -/
structure PredictionResult where
  date : String
  prediction : ℤ
  confidence : ℚ
  lowerBound : ℤ
  upperBound : ℤ
  therapies : ℤ
  sideEffects : ℤ
deriving DecidableEq, Repr

/-- `handlePredictionSubmit` (script.js lines 471–497).  The three form
fields arrive as `Option ℤ` (`none` = non-numeric input, i.e. `parseInt`
returned `NaN`).  `rand1` and `rand2` are the two successive `Math.random()`
draws (line 481 for the noise, line 484 for the confidence jitter); each
lies in `[0, 1)` when produced by the real generator, but the definition is
total in them. -/
def handlePredictionSubmit (date : String)
    (therapiesField sideEffectsField lastWeekField : Option ℤ)
    (rand1 rand2 : ℚ) : PredictionResult :=
  let therapies := jsOrInt therapiesField 0
  let sideEffects := jsOrInt sideEffectsField 0
  let lastWeekSteps := jsOrInt lastWeekField 8000
  let basePrediction : ℚ := (lastWeekSteps : ℚ)
  let therapyImpact : ℚ := (therapies : ℚ) * (-200)
  let sideEffectImpact : ℚ := (sideEffects : ℚ) * (-150)
  let randomVariation : ℚ := (rand1 - 1/2) * 500
  let prediction : ℤ :=
    max 0 (jsRound (basePrediction + therapyImpact + sideEffectImpact + randomVariation))
  let confidence : ℚ := 85/100 + rand2 * (1/10)
  let lowerBound : ℤ := jsRound ((prediction : ℚ) * (85/100))
  let upperBound : ℤ := jsRound ((prediction : ℚ) * (115/100))
  ⟨date, prediction, confidence, lowerBound, upperBound, therapies, sideEffects⟩

/-- Result of one invocation of `initializeCharts` (script.js lines 124–136):
either the four charts are built, or `Chart` was `undefined` and a retry was
scheduled via `setTimeout(initializeCharts, 500)`. -/
inductive InitResult where
  | chartsBuilt
  | retryScheduled
deriving DecidableEq, Repr

/-- One invocation of `initializeCharts`: build the charts when the `Chart`
global is defined, otherwise schedule a retry and return (script.js 124–136). -/
def initializeCharts (chartAvailable : Bool) : InitResult :=
  if chartAvailable then .chartsBuilt else .retryScheduled

/-- Whether the `n`-th invocation of `initializeCharts` occurs, given the
availability of the `Chart` global at each invocation: invocation 0 is the
initial call, and invocation `n+1` occurs exactly when invocation `n`
occurred with the library still unavailable (so that line 128 scheduled it). -/
def invocationOccurs (avail : ℕ → Bool) : ℕ → Bool
  | 0 => true
  | n + 1 => invocationOccurs avail n && !avail n

/-- The dashboard state touched by the theme-toggle handler
(script.js lines 80–91): the in-memory theme, the `localStorage` copy
(`none` = key absent), and the registered chart handles
(`none` = a falsy slot, skipped by the `if (chart)` guard on line 88). -/
structure ThemeState where
  currentTheme : Bool
  persistedTheme : Option Bool
  charts : List (Option ℕ)
deriving DecidableEq, Repr

/-- The theme-toggle click handler (script.js lines 80–91): flip the theme,
persist it, call `destroy()` on every truthy chart handle, and rebuild the
charts (`initializeCharts`), whose freshly created handles are supplied by
the rendering library.  Returns the new state and the list of handles on
which `destroy` was invoked, in order. -/
def toggleTheme (s : ThemeState) (freshCharts : List (Option ℕ)) :
    ThemeState × List ℕ :=
  let newTheme := !s.currentTheme
  (⟨newTheme, some newTheme, freshCharts⟩, s.charts.filterMap id)

/-- Observable outcome of `exportChartsAsImages`: number of image downloads
triggered, number of error toasts, number of success toasts. -/
structure ExportOutcome where
  downloads : ℕ
  errorNotices : ℕ
  successNotices : ℕ
deriving DecidableEq, Repr

/-- The per-surface loop of `exportChartsAsImages` (script.js lines 978–995),
sequentialized in resolution order.  Each `Bool` is whether `html2canvas`
succeeds on that surface.  A success triggers a download, increments
`exportedCount`, and shows the success toast when the count reaches the
total; a failure shows an error toast and leaves the other surfaces to
proceed. -/
def processSurfaces (total : ℕ) : ℕ → List Bool → ExportOutcome
  | _, [] => ⟨0, 0, 0⟩
  | exported, ok :: rest =>
    if ok then
      let r := processSurfaces total (exported + 1) rest
      ⟨r.downloads + 1, r.errorNotices,
        r.successNotices + (if exported + 1 = total then 1 else 0)⟩
    else
      let r := processSurfaces total exported rest
      ⟨r.downloads, r.errorNotices + 1, r.successNotices⟩

/-- `exportChartsAsImages` (script.js lines 965–996): if `html2canvas` is
not loaded, one error toast and nothing else; otherwise process every chart
surface as in `processSurfaces` with `exportedCount` starting at 0 and the
total equal to the number of surfaces. -/
def exportChartsAsImages (html2canvasAvailable : Bool)
    (surfaces : List Bool) : ExportOutcome :=
  if html2canvasAvailable then processSurfaces surfaces.length 0 surfaces
  else ⟨0, 1, 0⟩

/-- A residual point as built in `createResidualPlot` (script.js lines
309–312): `x` is the actual value, `y` the residual; `y = none` models the
`NaN` produced when the predicted series has no element at that index
(`actual - undefined`). -/
structure ResidualPoint where
  x : ℚ
  y : Option ℚ
deriving DecidableEq, Repr

/-- The residual computation of `createResidualPlot` (script.js lines
309–312): `actual.map((actual, i) => ({x: actual, y: actual - ebm[i]}))` —
one output element per element of `actual`, paired by index with the
predicted series. -/
def computeResiduals (actual predicted : List ℚ) : List ResidualPoint :=
  actual.mapIdx (fun i a => ⟨a, (predicted[i]?).map (fun p => a - p)⟩)

/-- The absolute-error series of `createErrorDistributionChart` (script.js
lines 377–379): `actual.map((actual, i) => Math.abs(actual - ebm[i]))`,
with `none` modelling the `NaN` from an out-of-range index. -/
def absErrors (actual predicted : List ℚ) : List (Option ℚ) :=
  actual.mapIdx (fun i a => (predicted[i]?).map (fun p => |a - p|))

/-- The filter predicate `e => e >= bin && e < bins[i+1]` of script.js line
384; every comparison against `NaN` (`none`) is false, as in JS. -/
def inBin : Option ℚ → ℚ → ℚ → Bool
  | none, _, _ => false
  | some v, lo, hi => decide (lo ≤ v) && decide (v < hi)

/-- The histogram of script.js lines 383–385:
`bins.slice(0, -1).map((bin, i) => errors.filter(e => e >= bin && e < bins[i+1]).length)`.
Pairing each edge of `slice(0, -1)` with its successor `bins[i+1]` is the
zip of the edge list with its tail. -/
def histogramCounts (errors : List (Option ℚ)) (edges : List ℚ) : List ℕ :=
  (edges.zip edges.tail).map (fun pr => (errors.filter (fun e => inBin e pr.1 pr.2)).length)

/-- The error-distribution computation of `createErrorDistributionChart`
(script.js lines 377–385), with the edge sequence as a parameter (the
script instantiates it with `[0, 500, ..., 4000]`). -/
def computeErrorHistogram (actual predicted edges : List ℚ) : List ℕ :=
  histogramCounts (absErrors actual predicted) edges

/-- Number of error values falling in `[lo, hi)` (a `NaN` value falls in no
interval). -/
def countIn (errors : List (Option ℚ)) (lo hi : ℚ) : ℕ :=
  (errors.filter (fun e => inBin e lo hi)).length

/-- The character for a decimal digit `d < 10`. -/
def digitToChar (d : ℕ) : Char := Char.ofNat (48 + d)

/-- The digit value of a decimal digit character. -/
def charToDigit (c : Char) : ℕ := c.toNat - 48

/-- Decimal numeral of a natural number, most significant digit first,
as JS number-to-string produces for integers (at least one digit). -/
def natToChars (n : ℕ) : List Char :=
  if n = 0 then ['0'] else ((Nat.digits 10 n).map digitToChar).reverse

/-- Value of a decimal numeral, most significant digit first. -/
def charsToNat (cs : List Char) : ℕ :=
  Nat.ofDigits 10 ((cs.map charToDigit).reverse)

/-- The digits of a fixed-2-decimals magnitude `m` (in hundredths):
integer part, `'.'`, and exactly two fraction digits. -/
def fixedChars (m : ℕ) : List Char :=
  natToChars (m / 100) ++ '.' :: [digitToChar (m % 100 / 10), digitToChar (m % 100 % 10)]

/-- JS `Number.prototype.toFixed(2)` on an exact rational: for a negative
number, a leading `'-'` and the magnitude; the magnitude is the integer
number of hundredths closest to `|q|`, ties going to the larger (away from
zero), which is `jsRound` of `|q| * 100`. -/
def toFixed2 (q : ℚ) : List Char :=
  if q < 0 then '-' :: fixedChars (jsRound (-q * 100)).natAbs
  else fixedChars (jsRound (q * 100)).natAbs

/-- The value `toFixed(2)` prints: `q` rounded to hundredths (ties away
from zero). -/
def rounded2 (q : ℚ) : ℚ :=
  if q < 0 then -((jsRound (-q * 100) : ℚ) / 100)
  else (jsRound (q * 100) : ℚ) / 100

/-- `Array.prototype.join(sep)` for a one-character separator. -/
def joinSep (c : Char) : List (List Char) → List Char
  | [] => []
  | [l] => l
  | l :: l' :: ls => l ++ c :: joinSep c (l' :: ls)

/-- `String.prototype.split(sep)` for a one-character separator: inverse of
`joinSep` on separator-free fields (splitting the empty string gives one
empty field, as in JS). -/
def splitSep (c : Char) : List Char → List (List Char)
  | [] => [[]]
  | x :: xs =>
    if x = c then [] :: splitSep c xs
    else
      match splitSep c xs with
      | [] => [[x]]
      | y :: ys => (x :: y) :: ys

/-- The fixed CSV header row fields of `exportToCSV` (script.js line 641). -/
def csvHeader : List (List Char) :=
  [("Date").toList, ("Prophet_Forecast").toList, ("EBM_Forecast").toList]

/-- `exportToCSV` (script.js lines 639–651): the header row followed by one
row per date holding the date and the two forecast values fixed to two
decimals; each row is joined with `','` and the rows with `'\n'`.  `none`
models the `TypeError` thrown when a forecast series is shorter than the
date list (`undefined.toFixed`). -/
def exportToCSV (dates : List (List Char)) (prophet ebm : List ℚ) :
    Option (List Char) :=
  if prophet.length < dates.length ∨ ebm.length < dates.length then none
  else some (joinSep '\n'
    (joinSep ',' csvHeader ::
      dates.mapIdx (fun i d =>
        joinSep ',' [d, toFixed2 (prophet.getD i 0), toFixed2 (ebm.getD i 0)])))

/-- Modelled from the spec: the CSV round-trip parser (the repository ships
no CSV reader; §8 of the spec states the round-trip property).  Split the
text into rows at `'\n'` and each row into fields at `','`. -/
def parseCsv (cs : List Char) : List (List (List Char)) :=
  (splitSep '\n' cs).map (splitSep ',')

/-- Modelled from the spec: parse one fixed-2-decimals field back into a
rational — an optional leading `'-'`, an integer part before `'.'` and a
two-digit fraction. -/
def parseMag (cs : List Char) : ℚ :=
  (charsToNat (cs.takeWhile (fun c => c ≠ '.')) : ℚ)
    + (charsToNat ((cs.dropWhile (fun c => c ≠ '.')).drop 1) : ℚ) / 100

/-- Modelled from the spec: signed fixed-2-decimals parser. -/
def parseFixed2 (cs : List Char) : ℚ :=
  if cs.head? = some '-' then -parseMag cs.tail else parseMag cs

/-- The ten decimal digit characters. -/
def digitChars : List Char := ['0', '1', '2', '3', '4', '5', '6', '7', '8', '9']

/-- C3: for every valid prediction request and every value of the random
perturbation (the confidence jitter draw lying in `[0,1)` as `Math.random`
guarantees), the estimator's output satisfies
`0 ≤ lowerBound ≤ pointEstimate ≤ upperBound` and `0 < confidence < 1`,
with `lowerBound = round(point * 0.85)` and `upperBound = round(point * 1.15)`. -/
theorem c3_estimator_bounds (d : String) (tf sf bf : Option ℤ) (r1 r2 : ℚ)
    (h0 : 0 ≤ r2) (h1 : r2 < 1) :
    0 ≤ (handlePredictionSubmit d tf sf bf r1 r2).lowerBound
    ∧ (handlePredictionSubmit d tf sf bf r1 r2).lowerBound
        ≤ (handlePredictionSubmit d tf sf bf r1 r2).prediction
    ∧ (handlePredictionSubmit d tf sf bf r1 r2).prediction
        ≤ (handlePredictionSubmit d tf sf bf r1 r2).upperBound
    ∧ 0 < (handlePredictionSubmit d tf sf bf r1 r2).confidence
    ∧ (handlePredictionSubmit d tf sf bf r1 r2).confidence < 1
    ∧ (handlePredictionSubmit d tf sf bf r1 r2).lowerBound
        = jsRound (((handlePredictionSubmit d tf sf bf r1 r2).prediction : ℚ) * (85/100))
    ∧ (handlePredictionSubmit d tf sf bf r1 r2).upperBound
        = jsRound (((handlePredictionSubmit d tf sf bf r1 r2).prediction : ℚ) * (115/100))
    ∧ 0 ≤ (handlePredictionSubmit d tf sf bf r1 r2).prediction := by
  simp only [handlePredictionSubmit]
  set p : ℤ := max 0 (jsRound (((jsOrInt bf 8000 : ℤ) : ℚ)
      + ((jsOrInt tf 0 : ℤ) : ℚ) * (-200) + ((jsOrInt sf 0 : ℤ) : ℚ) * (-150)
      + (r1 - 1/2) * 500)) with hp
  have hp0 : (0 : ℤ) ≤ p := le_max_left _ _
  have hpq : (0 : ℚ) ≤ (p : ℚ) := by exact_mod_cast hp0
  refine ⟨?_, ?_, ?_, by linarith, by linarith, trivial, trivial, hp0⟩
  · rw [jsRound]
    exact Int.le_floor.mpr (by linarith)
  · have h2 : jsRound ((p : ℚ) * (85/100)) < p + 1 := by
      rw [jsRound]
      exact Int.floor_lt.mpr (by push_cast; linarith)
    omega
  · rw [jsRound]
    exact Int.le_floor.mpr (by linarith)

/-- Witness for `c3_estimator_bounds` at a concrete request and draws. -/
theorem c3_estimator_bounds_witness :
    0 ≤ (handlePredictionSubmit "2025-01-01" (some 2) (some 3) (some 8000) (1/2) (1/2)).lowerBound
    ∧ (handlePredictionSubmit "2025-01-01" (some 2) (some 3) (some 8000) (1/2) (1/2)).lowerBound
        ≤ (handlePredictionSubmit "2025-01-01" (some 2) (some 3) (some 8000) (1/2) (1/2)).prediction
    ∧ (handlePredictionSubmit "2025-01-01" (some 2) (some 3) (some 8000) (1/2) (1/2)).prediction
        ≤ (handlePredictionSubmit "2025-01-01" (some 2) (some 3) (some 8000) (1/2) (1/2)).upperBound
    ∧ 0 < (handlePredictionSubmit "2025-01-01" (some 2) (some 3) (some 8000) (1/2) (1/2)).confidence
    ∧ (handlePredictionSubmit "2025-01-01" (some 2) (some 3) (some 8000) (1/2) (1/2)).confidence < 1
    ∧ (handlePredictionSubmit "2025-01-01" (some 2) (some 3) (some 8000) (1/2) (1/2)).lowerBound
        = jsRound (((handlePredictionSubmit "2025-01-01" (some 2) (some 3) (some 8000) (1/2) (1/2)).prediction : ℚ) * (85/100))
    ∧ (handlePredictionSubmit "2025-01-01" (some 2) (some 3) (some 8000) (1/2) (1/2)).upperBound
        = jsRound (((handlePredictionSubmit "2025-01-01" (some 2) (some 3) (some 8000) (1/2) (1/2)).prediction : ℚ) * (115/100))
    ∧ 0 ≤ (handlePredictionSubmit "2025-01-01" (some 2) (some 3) (some 8000) (1/2) (1/2)).prediction :=
  c3_estimator_bounds "2025-01-01" (some 2) (some 3) (some 8000) (1/2) (1/2)
    (by norm_num) (by norm_num)

/-- C4: the point estimate equals
`max(0, round(recentBaseline + activeTherapies * (-200)
 + sideEffectIntensity * (-150) + noise))`, and at
`activeTherapies = 2`, `sideEffectIntensity = 3`, `recentBaseline = 8000`,
`noise = 0` it is `7150`. -/
theorem c4_point_formula (d : String) (tf sf bf : Option ℤ) (noise r2 : ℚ) :
    (handlePredictionSubmit d tf sf bf (noise/500 + 1/2) r2).prediction
      = max 0 (jsRound (((jsOrInt bf 8000 : ℤ) : ℚ)
          + ((jsOrInt tf 0 : ℤ) : ℚ) * (-200)
          + ((jsOrInt sf 0 : ℤ) : ℚ) * (-150) + noise))
    ∧ (handlePredictionSubmit d (some 2) (some 3) (some 8000) (0/500 + 1/2) r2).prediction
        = 7150 := by
  constructor
  · have hn : (noise/500 + 1/2 - 1/2) * 500 = noise := by ring
    simp only [handlePredictionSubmit, hn]
  · simp only [handlePredictionSubmit, jsOrInt]
    norm_num [jsRound]

/-- C5 counterexample: two runs with the same request and the same noise
draw but a different confidence draw give different `PredictionResult`s
(the confidence field has its own, second `Math.random()` call), so the
noise term is not the only non-deterministic input. -/
theorem c5_counterexample :
    handlePredictionSubmit "2025-01-01" (some 2) (some 3) (some 8000) (1/2) 0
      ≠ handlePredictionSubmit "2025-01-01" (some 2) (some 3) (some 8000) (1/2) (1/2) := by
  intro h
  have hc := congrArg PredictionResult.confidence h
  simp only [handlePredictionSubmit] at hc
  norm_num at hc

/-- C5 amended: the estimator is deterministic once both random draws are
fixed; fixing the request and the noise draw alone determines every field
of the result except `confidence`, which is `0.85 + r2 * 0.1` for the
second, independent draw `r2`. -/
theorem c5_determinism_amended (d : String) (tf sf bf : Option ℤ)
    (r1 r2 r2' : ℚ) :
    (handlePredictionSubmit d tf sf bf r1 r2).prediction
      = (handlePredictionSubmit d tf sf bf r1 r2').prediction
    ∧ (handlePredictionSubmit d tf sf bf r1 r2).lowerBound
        = (handlePredictionSubmit d tf sf bf r1 r2').lowerBound
    ∧ (handlePredictionSubmit d tf sf bf r1 r2).upperBound
        = (handlePredictionSubmit d tf sf bf r1 r2').upperBound
    ∧ (handlePredictionSubmit d tf sf bf r1 r2).date
        = (handlePredictionSubmit d tf sf bf r1 r2').date
    ∧ (handlePredictionSubmit d tf sf bf r1 r2).therapies
        = (handlePredictionSubmit d tf sf bf r1 r2').therapies
    ∧ (handlePredictionSubmit d tf sf bf r1 r2).sideEffects
        = (handlePredictionSubmit d tf sf bf r1 r2').sideEffects
    ∧ (handlePredictionSubmit d tf sf bf r1 r2).confidence = 85/100 + r2 * (1/10) :=
  ⟨rfl, rfl, rfl, rfl, rfl, rfl, rfl⟩

/-- C8 counterexample: with the rendering library never available, a third
invocation of `initializeCharts` still occurs — the code retries after every
failed invocation (`setTimeout(initializeCharts, 500)` on line 128), not
exactly once, and the retry chain never reaches a terminal state. -/
theorem c8_counterexample :
    invocationOccurs (fun _ => false) 2 = true
    ∧ invocationOccurs (fun _ => false) 3 = true := ⟨rfl, rfl⟩

/-- C8 amended: each single invocation of `initializeCharts` terminates and
degrades to "no chart" (not a crash) when the rendering capability is
unavailable, rescheduling itself after a fixed delay; but the retry is
unbounded, not once: if the capability never becomes available, every
invocation in the chain occurs (the chain of retries never terminates). -/
theorem c8_retry_amended (avail : ℕ → Bool) (n : ℕ) :
    initializeCharts false = InitResult.retryScheduled
    ∧ initializeCharts true = InitResult.chartsBuilt
    ∧ invocationOccurs (fun _ => false) n = true
    ∧ invocationOccurs avail (n + 1) = (invocationOccurs avail n && !avail n) := by
  refine ⟨rfl, rfl, ?_, rfl⟩
  induction n with
  | zero => rfl
  | succ k ih => simp [invocationOccurs, ih]

/-- C9: toggling the theme twice returns both the in-memory and the
persisted theme flag to their original values; each toggle calls `destroy`
exactly once on every previously registered (truthy) chart handle and
replaces the handle map with the freshly built handles. -/
theorem c9_theme_toggle (s : ThemeState) (fresh1 fresh2 : List (Option ℕ))
    (hpers : s.persistedTheme = some s.currentTheme)
    (hnd : (s.charts.filterMap id).Nodup) :
    (toggleTheme (toggleTheme s fresh1).1 fresh2).1.currentTheme = s.currentTheme
    ∧ (toggleTheme (toggleTheme s fresh1).1 fresh2).1.persistedTheme = s.persistedTheme
    ∧ (toggleTheme s fresh1).2 = s.charts.filterMap id
    ∧ (∀ h ∈ (toggleTheme s fresh1).2, (toggleTheme s fresh1).2.count h = 1)
    ∧ (toggleTheme s fresh1).1.charts = fresh1
    ∧ (toggleTheme (toggleTheme s fresh1).1 fresh2).2 = fresh1.filterMap id := by
  refine ⟨by simp [toggleTheme], by simp [toggleTheme, hpers], rfl, ?_, rfl, rfl⟩
  intro h hmem
  exact List.count_eq_one_of_mem hnd hmem

/-- Witness for `c9_theme_toggle` at a concrete state with three chart
slots (one falsy) and fresh handles. -/
theorem c9_theme_toggle_witness :
    (toggleTheme (toggleTheme ⟨false, some false, [some 1, none, some 2]⟩ [some 5]).1 [some 6]).1.currentTheme = false
    ∧ (toggleTheme (toggleTheme ⟨false, some false, [some 1, none, some 2]⟩ [some 5]).1 [some 6]).1.persistedTheme = some false
    ∧ (toggleTheme ⟨false, some false, [some 1, none, some 2]⟩ [some 5]).2
        = List.filterMap id [some 1, none, some 2]
    ∧ (∀ h ∈ (toggleTheme ⟨false, some false, [some 1, none, some 2]⟩ [some 5]).2,
        (toggleTheme ⟨false, some false, [some 1, none, some 2]⟩ [some 5]).2.count h = 1)
    ∧ (toggleTheme ⟨false, some false, [some 1, none, some 2]⟩ [some 5]).1.charts = [some 5]
    ∧ (toggleTheme (toggleTheme ⟨false, some false, [some 1, none, some 2]⟩ [some 5]).1 [some 6]).2
        = List.filterMap id [some 5] :=
  c9_theme_toggle ⟨false, some false, [some 1, none, some 2]⟩ [some 5] [some 6]
    rfl (by decide)

/-- C10: a recent-baseline field that is non-numeric (`parseInt` gives
`NaN`) or that parses to exactly `0` (falsy) falls back to the default
`8000`, so such submissions give the same `PredictionResult` as an explicit
baseline of `8000` under the same random draws. -/
theorem c10_falsy_baseline (d : String) (tf sf : Option ℤ) (r1 r2 : ℚ) :
    handlePredictionSubmit d tf sf (some 0) r1 r2
      = handlePredictionSubmit d tf sf (some 8000) r1 r2
    ∧ handlePredictionSubmit d tf sf none r1 r2
        = handlePredictionSubmit d tf sf (some 8000) r1 r2
    ∧ jsOrInt (some 0) 8000 = 8000
    ∧ jsOrInt none 8000 = 8000 := by
  refine ⟨?_, ?_, rfl, rfl⟩ <;> simp [handlePredictionSubmit, jsOrInt]

/-- C1 counterexample: with `actual = [1]` and an empty predicted series,
`computeResiduals` returns a one-element sequence (with a `NaN` residual),
not the empty sequence, and its length is not
`min (len actual) (len predicted) = 0`. -/
theorem c1_counterexample :
    computeResiduals [1] [] ≠ []
    ∧ (computeResiduals [1] []).length
        ≠ min ([1] : List ℚ).length ([] : List ℚ).length := by
  constructor <;> decide

/-- C1 amended: `computeResiduals` returns one element per element of
`actual` (not of the shorter input); for indices below both lengths the
element is `{actual[i], actual[i] - predicted[i]}` exactly; the result is
empty iff `actual` is empty; under the `ForecastBundle` invariant
`len actual ≤ len predicted` the length coincides with
`min (len actual) (len predicted)`; and the cited scenario yields
`[{95, 5}, {112, -3}]`. -/
theorem c1_residuals_amended (actual predicted : List ℚ) :
    (computeResiduals actual predicted).length = actual.length
    ∧ (computeResiduals actual predicted = [] ↔ actual = [])
    ∧ (∀ (i : ℕ) (h1 : i < actual.length) (h2 : i < predicted.length),
        (computeResiduals actual predicted)[i]?
          = some ⟨actual.get ⟨i, h1⟩, some (actual.get ⟨i, h1⟩ - predicted.get ⟨i, h2⟩)⟩)
    ∧ (∀ (i : ℕ) (h1 : i < actual.length), predicted.length ≤ i →
        (computeResiduals actual predicted)[i]?
          = some ⟨actual.get ⟨i, h1⟩, none⟩)
    ∧ (actual.length ≤ predicted.length →
        (computeResiduals actual predicted).length
          = min actual.length predicted.length)
    ∧ computeResiduals [95, 112] [90, 115, 125]
        = [⟨95, some 5⟩, ⟨112, some (-3)⟩] := by
  have hlen : (computeResiduals actual predicted).length = actual.length := by
    simp [computeResiduals]
  refine ⟨hlen, by simp [computeResiduals], ?_, ?_, ?_,
    by simp [computeResiduals, List.mapIdx_cons]; norm_num⟩
  · intro i h1 h2
    have h1' : i < (computeResiduals actual predicted).length := by omega
    rw [List.getElem?_eq_getElem h1']
    simp [computeResiduals, List.get_mapIdx, List.getElem?_eq_getElem h2]
  · intro i h1 h2
    have h1' : i < (computeResiduals actual predicted).length := by omega
    rw [List.getElem?_eq_getElem h1']
    simp [computeResiduals, List.get_mapIdx, List.getElem?_eq_none h2]
  · intro h
    omega

/-- Witness for `c1_residuals_amended`: the spec's scenario at index 0
(exact residual) and a too-short predicted series at index 1 (`NaN`
residual). -/
theorem c1_residuals_amended_witness :
    (computeResiduals [95, 112] [90, 115, 125])[0]?
      = some ⟨(95 : ℚ), some ((95 : ℚ) - 90)⟩
    ∧ (computeResiduals [95, 112] [90])[1]? = some ⟨(112 : ℚ), none⟩ :=
  ⟨(c1_residuals_amended [95, 112] [90, 115, 125]).2.2.1 0 (by norm_num) (by norm_num),
   (c1_residuals_amended [95, 112] [90]).2.2.2.1 1 (by norm_num) (by norm_num)⟩

/-- C2 counterexample: with the rasterization library loaded, a failure on
the first surface does not abort the batch — the second surface still
rasterizes and downloads — and two failing surfaces produce two error
reports, not one consolidated one. -/
theorem c2_counterexample :
    exportChartsAsImages true [false, true] = ⟨1, 1, 0⟩
    ∧ exportChartsAsImages true [false, false] = ⟨0, 2, 0⟩ := by
  constructor <;> rfl

lemma processSurfaces_downloads (total : ℕ) :
    ∀ (l : List Bool) (e : ℕ),
      (processSurfaces total e l).downloads = l.count true := by
  intro l
  induction l with
  | nil => intro e; rfl
  | cons ok rest ih =>
    intro e
    cases ok <;> simp [processSurfaces, ih, List.count_cons]

lemma processSurfaces_errors (total : ℕ) :
    ∀ (l : List Bool) (e : ℕ),
      (processSurfaces total e l).errorNotices = l.count false := by
  intro l
  induction l with
  | nil => intro e; rfl
  | cons ok rest ih =>
    intro e
    cases ok <;> simp [processSurfaces, ih, List.count_cons]

lemma processSurfaces_success_lt (total : ℕ) :
    ∀ (l : List Bool) (e : ℕ), e + l.length < total →
      (processSurfaces total e l).successNotices = 0 := by
  intro l
  induction l with
  | nil => intro e h; rfl
  | cons ok rest ih =>
    intro e h
    simp only [List.length_cons] at h
    cases ok with
    | true =>
      have hne : ¬(e + 1 = total) := by omega
      simp [processSurfaces, ih (e + 1) (by omega), hne]
    | false =>
      simp [processSurfaces, ih e (by omega)]

lemma processSurfaces_success_eq (total : ℕ) :
    ∀ (l : List Bool) (e : ℕ), e + l.length = total →
      (processSurfaces total e l).successNotices
        = if l.all id = true ∧ l ≠ [] then 1 else 0 := by
  intro l
  induction l with
  | nil => intro e h; simp [processSurfaces]
  | cons ok rest ih =>
    intro e h
    simp only [List.length_cons] at h
    cases ok with
    | true =>
      rcases eq_or_ne rest [] with hre | hre
      · subst hre
        simp only [List.length_nil] at h
        have he : e + 1 = total := by omega
        simp [processSurfaces, he]
      · have hne : ¬(e + 1 = total) := by
          intro hc
          have : rest.length = 0 := by omega
          exact hre (List.eq_nil_of_length_eq_zero this)
        simp [processSurfaces, hne, ih (e + 1) (by omega), hre]
    | false =>
      simp [processSurfaces, processSurfaces_success_lt total rest e (by omega)]

/-- C2 amended: with the rasterization capability loaded, every surface is
processed independently — a failure does not abort the others: the number
of downloads equals the number of successfully rasterized surfaces, each
failing surface produces its own error report (one per failure, so a
multi-failure batch reports more than one error), already-completed
downloads are never rolled back, and overall success is declared exactly
when every surface of a non-empty batch has been processed successfully.
With the capability missing, one error and no downloads. -/
theorem c2_batch_amended (surfaces : List Bool) :
    (exportChartsAsImages true surfaces).downloads = surfaces.count true
    ∧ (exportChartsAsImages true surfaces).errorNotices = surfaces.count false
    ∧ (exportChartsAsImages true surfaces).successNotices
        = (if surfaces.all id = true ∧ surfaces ≠ [] then 1 else 0)
    ∧ exportChartsAsImages false surfaces = ⟨0, 1, 0⟩ := by
  refine ⟨processSurfaces_downloads surfaces.length surfaces 0,
    processSurfaces_errors surfaces.length surfaces 0, ?_, rfl⟩
  exact processSurfaces_success_eq surfaces.length surfaces 0 (by omega)

lemma countIn_cons (e : Option ℚ) (rest : List (Option ℚ)) (lo hi : ℚ) :
    countIn (e :: rest) lo hi
      = (if inBin e lo hi then 1 else 0) + countIn rest lo hi := by
  simp only [countIn, List.filter_cons]
  split <;> simp [Nat.add_comm]

lemma inBin_split (e : Option ℚ) (lo mid hi : ℚ)
    (h1 : lo ≤ mid) (h2 : mid ≤ hi) :
    (if inBin e lo mid then 1 else 0) + (if inBin e mid hi then 1 else 0)
      = if inBin e lo hi then (1 : ℕ) else 0 := by
  cases e with
  | none => simp [inBin]
  | some v =>
    simp only [inBin]
    by_cases h3 : lo ≤ v <;> by_cases h4 : v < mid <;> by_cases h5 : v < hi <;>
      simp [h3, h4, h5] <;> linarith

lemma countIn_split (errors : List (Option ℚ)) (lo mid hi : ℚ)
    (h1 : lo ≤ mid) (h2 : mid ≤ hi) :
    countIn errors lo mid + countIn errors mid hi = countIn errors lo hi := by
  induction errors with
  | nil => rfl
  | cons e rest ih =>
    rw [countIn_cons, countIn_cons, countIn_cons]
    rw [show (if inBin e lo mid then 1 else 0) + countIn rest lo mid
          + ((if inBin e mid hi then 1 else 0) + countIn rest mid hi)
        = ((if inBin e lo mid then 1 else 0) + (if inBin e mid hi then 1 else 0))
          + (countIn rest lo mid + countIn rest mid hi) from by ring]
    rw [inBin_split e lo mid hi h1 h2, ih]

lemma histogramCounts_cons (errors : List (Option ℚ)) (e0 e1 : ℚ)
    (rest : List ℚ) :
    histogramCounts errors (e0 :: e1 :: rest)
      = countIn errors e0 e1 :: histogramCounts errors (e1 :: rest) := rfl

lemma chain_head_le_getLast :
    ∀ (l : List ℚ) (a : ℚ), List.Chain' (· < ·) (a :: l) →
      a ≤ (a :: l).getLast (List.cons_ne_nil a l) := by
  intro l
  induction l with
  | nil => intro a _; rfl
  | cons b l' ih =>
    intro a h
    have hab : a < b := List.Chain'.rel_head h
    have hb := ih b (List.Chain'.tail h)
    rw [List.getLast_cons (List.cons_ne_nil b l')]
    exact le_trans hab.le hb

lemma histogramCounts_sum (errors : List (Option ℚ)) :
    ∀ (rest : List ℚ) (e0 e1 : ℚ),
      List.Chain' (· < ·) (e0 :: e1 :: rest) →
      (histogramCounts errors (e0 :: e1 :: rest)).sum
        = countIn errors e0
            ((e0 :: e1 :: rest).getLast (List.cons_ne_nil e0 (e1 :: rest))) := by
  intro rest
  induction rest with
  | nil =>
    intro e0 e1 _
    simp [histogramCounts_cons, histogramCounts, countIn, List.getLast]
  | cons e2 rest' ih =>
    intro e0 e1 h
    have h01 : e0 < e1 := List.Chain'.rel_head h
    have htail : List.Chain' (· < ·) (e1 :: e2 :: rest') := List.Chain'.tail h
    have h1l : e1 ≤ (e1 :: e2 :: rest').getLast (List.cons_ne_nil e1 (e2 :: rest')) :=
      chain_head_le_getLast (e2 :: rest') e1 htail
    rw [histogramCounts_cons, List.sum_cons, ih e1 e2 htail,
      List.getLast_cons (List.cons_ne_nil e1 (e2 :: rest'))]
    exact countIn_split errors e0 e1 _ h01.le h1l

lemma histogramCounts_getElem (errors : List (Option ℚ)) :
    ∀ (edges : List ℚ) (k : ℕ) (hk : k + 1 < edges.length),
      (histogramCounts errors edges)[k]?
        = some (countIn errors (edges.get ⟨k, by omega⟩) (edges.get ⟨k + 1, hk⟩)) := by
  intro edges
  induction edges with
  | nil => intro k hk; simp at hk
  | cons e0 rest ih =>
    intro k hk
    cases rest with
    | nil => simp at hk
    | cons e1 rest' =>
      cases k with
      | zero =>
        rw [histogramCounts_cons]
        simp
      | succ k' =>
        rw [histogramCounts_cons]
        simp only [List.getElem?_cons_succ]
        exact ih k' (by simpa using hk)

/-- C6: for strictly ascending edges of length `k ≥ 2`,
`computeErrorHistogram` returns exactly `k - 1` bins; bin `i` counts the
absolute residuals in `[edges[i], edges[i+1])` (values at or above the last
edge fall in no bin and are dropped); and the bin counts sum to the number
of residual magnitudes within `[edges[0], edges[k-1])`. -/
theorem c6_error_histogram (actual predicted edges : List ℚ)
    (hlen : 2 ≤ edges.length) (hasc : List.Chain' (· < ·) edges) :
    (computeErrorHistogram actual predicted edges).length = edges.length - 1
    ∧ (∀ (k : ℕ) (hk : k + 1 < edges.length),
        (computeErrorHistogram actual predicted edges)[k]?
          = some (countIn (absErrors actual predicted)
              (edges.get ⟨k, by omega⟩) (edges.get ⟨k + 1, hk⟩)))
    ∧ (computeErrorHistogram actual predicted edges).sum
        = countIn (absErrors actual predicted)
            (edges.get ⟨0, by omega⟩)
            (edges.getLast (List.length_pos.mp (by omega))) := by
  refine ⟨?_, ?_, ?_⟩
  · simp only [computeErrorHistogram, histogramCounts, List.length_map,
      List.length_zip, List.length_tail]
    omega
  · intro k hk
    exact histogramCounts_getElem (absErrors actual predicted) edges k hk
  · match edges, hlen with
    | e0 :: e1 :: rest, _ =>
      exact histogramCounts_sum (absErrors actual predicted) rest e0 e1 hasc

/-- Witness for `c6_error_histogram`: edges `[0, 500, 1000]` on the
two-point series `actual = [100, 700]`, `predicted = [0, 0]`. -/
theorem c6_error_histogram_witness :
    (computeErrorHistogram [100, 700] [0, 0] [0, 500, 1000]).sum
      = countIn (absErrors [100, 700] [0, 0])
          (([0, 500, 1000] : List ℚ).get ⟨0, by norm_num⟩)
          (([0, 500, 1000] : List ℚ).getLast (by simp)) :=
  (c6_error_histogram [100, 700] [0, 0] [0, 500, 1000]
    (by norm_num) (by norm_num)).2.2

lemma digitToChar_mem (d : ℕ) (h : d < 10) : digitToChar d ∈ digitChars := by
  interval_cases d <;> decide

lemma charToDigit_digitToChar (d : ℕ) (h : d < 10) :
    charToDigit (digitToChar d) = d := by
  interval_cases d <;> decide

lemma natToChars_subset (n : ℕ) : ∀ c ∈ natToChars n, c ∈ digitChars := by
  intro c hc
  unfold natToChars at hc
  split at hc
  · simp only [List.mem_singleton] at hc
    subst hc; decide
  · simp only [List.mem_reverse, List.mem_map] at hc
    obtain ⟨d, hd, rfl⟩ := hc
    exact digitToChar_mem d (Nat.digits_lt_base (by norm_num) hd)

lemma charsToNat_natToChars (n : ℕ) : charsToNat (natToChars n) = n := by
  unfold natToChars
  split
  · rename_i h; rw [h]; decide
  · unfold charsToNat
    rw [List.map_reverse, List.reverse_reverse, List.map_map]
    have h2 : ∀ d ∈ Nat.digits 10 n, (charToDigit ∘ digitToChar) d = id d :=
      fun d hd => charToDigit_digitToChar d (Nat.digits_lt_base (by norm_num) hd)
    rw [List.map_congr_left h2, List.map_id]
    exact Nat.ofDigits_digits 10 n

lemma fixedChars_subset (m : ℕ) : ∀ c ∈ fixedChars m, c ∈ '.' :: digitChars := by
  intro c hc
  unfold fixedChars at hc
  rcases List.mem_append.mp hc with h | h
  · exact List.mem_cons_of_mem _ (natToChars_subset _ _ h)
  · rcases List.mem_cons.mp h with rfl | h2
    · exact List.mem_cons_self _ _
    · rcases List.mem_cons.mp h2 with rfl | h3
      · exact List.mem_cons_of_mem _ (digitToChar_mem _ (by omega))
      · rcases List.mem_singleton.mp h3 with rfl
        exact List.mem_cons_of_mem _ (digitToChar_mem _ (by omega))

lemma toFixed2_subset (q : ℚ) : ∀ c ∈ toFixed2 q, c ∈ '-' :: '.' :: digitChars := by
  intro c hc
  unfold toFixed2 at hc
  split at hc
  · rcases List.mem_cons.mp hc with rfl | h
    · exact List.mem_cons_self _ _
    · exact List.mem_cons_of_mem _ (fixedChars_subset _ _ h)
  · exact List.mem_cons_of_mem _ (fixedChars_subset _ _ hc)

lemma comma_not_mem_toFixed2 (q : ℚ) : ',' ∉ toFixed2 q := by
  intro h
  exact absurd (toFixed2_subset q ',' h) (by decide)

lemma newline_not_mem_toFixed2 (q : ℚ) : '\n' ∉ toFixed2 q := by
  intro h
  exact absurd (toFixed2_subset q '\n' h) (by decide)

lemma splitSep_of_not_mem (c : Char) :
    ∀ (l : List Char), c ∉ l → splitSep c l = [l] := by
  intro l
  induction l with
  | nil => intro _; rfl
  | cons x xs ih =>
    intro h
    have hx : ¬(x = c) := fun e => h (e ▸ List.mem_cons_self x xs)
    have hxs : c ∉ xs := fun hm => h (List.mem_cons_of_mem x hm)
    simp only [splitSep, if_neg hx, ih hxs]

lemma splitSep_append (c : Char) :
    ∀ (l rest : List Char), c ∉ l →
      splitSep c (l ++ c :: rest) = l :: splitSep c rest := by
  intro l
  induction l with
  | nil => intro rest _; simp [splitSep]
  | cons x xs ih =>
    intro rest h
    have hx : ¬(x = c) := fun e => h (e ▸ List.mem_cons_self x xs)
    have hxs : c ∉ xs := fun hm => h (List.mem_cons_of_mem x hm)
    simp only [List.cons_append, splitSep, List.append_eq, if_neg hx, ih rest hxs]

lemma splitSep_joinSep (c : Char) :
    ∀ (ls : List (List Char)), ls ≠ [] → (∀ l ∈ ls, c ∉ l) →
      splitSep c (joinSep c ls) = ls := by
  intro ls
  induction ls with
  | nil => intro h _; exact absurd rfl h
  | cons l ls' ih =>
    intro _ hmem
    cases ls' with
    | nil =>
      simpa [joinSep] using splitSep_of_not_mem c l (hmem l (List.mem_cons_self _ _))
    | cons l2 ls'' =>
      rw [joinSep, splitSep_append c l _ (hmem l (List.mem_cons_self _ _)),
        ih (by simp) (fun x hx => hmem x (List.mem_cons_of_mem _ hx))]

lemma mem_joinSep (c : Char) :
    ∀ (ls : List (List Char)) (x : Char),
      x ∈ joinSep c ls → x = c ∨ ∃ l ∈ ls, x ∈ l := by
  intro ls
  induction ls with
  | nil => intro x hx; simp [joinSep] at hx
  | cons l ls' ih =>
    intro x hx
    cases ls' with
    | nil =>
      right
      exact ⟨l, List.mem_cons_self _ _, by simpa [joinSep] using hx⟩
    | cons l2 ls'' =>
      rw [joinSep] at hx
      rcases List.mem_append.mp hx with h | h
      · right; exact ⟨l, List.mem_cons_self _ _, h⟩
      · rcases List.mem_cons.mp h with rfl | h2
        · left; rfl
        · rcases ih x h2 with h3 | ⟨l3, hl3, hx3⟩
          · left; exact h3
          · right; exact ⟨l3, List.mem_cons_of_mem _ hl3, hx3⟩

lemma takeWhile_dropWhile_append {p : Char → Bool} :
    ∀ (l1 : List Char) (x : Char) (l2 : List Char),
      (∀ a ∈ l1, p a = true) → p x = false →
      (l1 ++ x :: l2).takeWhile p = l1 ∧ (l1 ++ x :: l2).dropWhile p = x :: l2 := by
  intro l1
  induction l1 with
  | nil =>
    intro x l2 _ hx
    constructor <;> simp [List.takeWhile_cons, List.dropWhile_cons, hx]
  | cons a l1' ih =>
    intro x l2 hall hx
    have ha : p a = true := hall a (List.mem_cons_self _ _)
    have h' := ih x l2 (fun b hb => hall b (List.mem_cons_of_mem _ hb)) hx
    constructor <;>
      simp [List.takeWhile_cons, List.dropWhile_cons, ha, h'.1, h'.2]

lemma charsToNat_two_digits (d1 d2 : ℕ) (h1 : d1 < 10) (h2 : d2 < 10) :
    charsToNat [digitToChar d1, digitToChar d2] = 10 * d1 + d2 := by
  unfold charsToNat
  simp [charToDigit_digitToChar d1 h1, charToDigit_digitToChar d2 h2,
    Nat.ofDigits_cons, Nat.ofDigits_nil]
  ring

lemma parseMag_fixedChars (m : ℕ) : parseMag (fixedChars m) = (m : ℚ) / 100 := by
  have hall : ∀ a ∈ natToChars (m / 100),
      (fun c => decide (c ≠ '.')) a = true := by
    intro a ha
    have := natToChars_subset (m / 100) a ha
    simp only [decide_eq_true_eq]
    intro e
    subst e
    exact absurd this (by decide)
  have hsplit := takeWhile_dropWhile_append (natToChars (m / 100)) '.'
    [digitToChar (m % 100 / 10), digitToChar (m % 100 % 10)] hall (by decide)
  unfold parseMag fixedChars
  rw [hsplit.1, hsplit.2]
  simp only [List.drop_succ_cons, List.drop_zero]
  rw [charsToNat_natToChars,
    charsToNat_two_digits _ _ (by omega) (by omega)]
  have hm : 100 * (m / 100) + (10 * (m % 100 / 10) + m % 100 % 10) = m := by omega
  have hq : ((100 * (m / 100) + (10 * (m % 100 / 10) + m % 100 % 10) : ℕ) : ℚ)
      = (m : ℚ) := by exact_mod_cast hm
  push_cast at hq ⊢
  linarith

lemma jsRound_nonneg {x : ℚ} (hx : 0 ≤ x) : 0 ≤ jsRound x := by
  unfold jsRound
  exact Int.le_floor.mpr (by push_cast; linarith)

lemma parseFixed2_toFixed2 (q : ℚ) : parseFixed2 (toFixed2 q) = rounded2 q := by
  unfold toFixed2 rounded2
  split
  · rename_i hq
    have hnn : 0 ≤ jsRound (-q * 100) :=
      jsRound_nonneg (by nlinarith)
    have hcast : ((jsRound (-q * 100)).natAbs : ℚ)
        = ((jsRound (-q * 100) : ℤ) : ℚ) := by
      rw [Int.cast_natAbs, abs_of_nonneg hnn]
    unfold parseFixed2
    simp only [List.head?_cons, List.tail_cons, if_true]
    rw [parseMag_fixedChars, hcast]
  · rename_i hq
    have hnn : 0 ≤ jsRound (q * 100) :=
      jsRound_nonneg (by nlinarith [not_lt.mp hq])
    have hcast : ((jsRound (q * 100)).natAbs : ℚ)
        = ((jsRound (q * 100) : ℤ) : ℚ) := by
      rw [Int.cast_natAbs, abs_of_nonneg hnn]
    have hhead : ¬((fixedChars (jsRound (q * 100)).natAbs).head? = some '-') := by
      intro h
      have hmem : '-' ∈ fixedChars (jsRound (q * 100)).natAbs :=
        List.mem_of_mem_head? h
      exact absurd (fixedChars_subset _ _ hmem) (by decide)
    unfold parseFixed2
    rw [if_neg hhead, parseMag_fixedChars, hcast]

lemma mapIdx_map_comp {α β γ : Type} (g : β → γ) :
    ∀ (l : List α) (f : ℕ → α → β),
      (l.mapIdx f).map g = l.mapIdx (fun i a => g (f i a)) := by
  intro l
  induction l with
  | nil => intro f; rfl
  | cons a l' ih => intro f; simp [List.mapIdx_cons, ih]

lemma mapIdx_congr_mem {α β : Type} :
    ∀ (l : List α) (f g : ℕ → α → β),
      (∀ i a, a ∈ l → f i a = g i a) → l.mapIdx f = l.mapIdx g := by
  intro l
  induction l with
  | nil => intro f g _; rfl
  | cons a l' ih =>
    intro f g h
    simp only [List.mapIdx_cons]
    rw [h 0 a (List.mem_cons_self _ _),
      ih _ _ (fun i b hb => h (i + 1) b (List.mem_cons_of_mem _ hb))]

lemma mapIdx_id_eq {α : Type} : ∀ (l : List α), l.mapIdx (fun _ a => a) = l := by
  intro l
  induction l with
  | nil => rfl
  | cons a l' ih => simp only [List.mapIdx_cons, ih]

lemma mapIdx_getD_map {α β γ : Type} (f : β → γ) (dflt : β) :
    ∀ (ds : List α) (l : List β), ds.length = l.length →
      ds.mapIdx (fun i _ => f (l.getD i dflt)) = l.map f := by
  intro ds
  induction ds with
  | nil =>
    intro l h
    rw [List.length_nil] at h
    rw [(List.eq_nil_of_length_eq_zero h.symm)]
    rfl
  | cons d ds' ih =>
    intro l h
    cases l with
    | nil => simp at h
    | cons x l' =>
      simp only [List.mapIdx_cons, List.getD_cons_zero, List.getD_cons_succ,
        List.map_cons]
      rw [ih l' (by simpa using h)]

lemma mem_of_mem_mapIdx {α β : Type} :
    ∀ (l : List α) (f : ℕ → α → β) (b : β),
      b ∈ l.mapIdx f → ∃ i a, a ∈ l ∧ b = f i a := by
  intro l
  induction l with
  | nil => intro f b h; simp at h
  | cons x l' ih =>
    intro f b h
    rw [List.mapIdx_cons] at h
    rcases List.mem_cons.mp h with rfl | h2
    · exact ⟨0, x, List.mem_cons_self _ _, rfl⟩
    · obtain ⟨i, a, ha, rfl⟩ := ih _ b h2
      exact ⟨i + 1, a, List.mem_cons_of_mem _ ha, rfl⟩

/-- C7: for a well-formed bundle (equal series lengths, dates free of
separator characters, as ISO date strings are), CSV export succeeds and
produces the header row `Date,Prophet_Forecast,EBM_Forecast` followed by
one row per date whose fields are the date and the two method values fixed
to two decimals, rows joined by newline; splitting the output back into
rows and fields recovers the dates exactly and each forecast value up to
2-decimal rounding. -/
theorem c7_csv_roundtrip (dates : List (List Char)) (prophet ebm : List ℚ)
    (hlenP : prophet.length = dates.length)
    (hlenE : ebm.length = dates.length)
    (hdates : ∀ d ∈ dates, ',' ∉ d ∧ '\n' ∉ d) :
    ∃ s, exportToCSV dates prophet ebm = some s
      ∧ parseCsv s = csvHeader ::
          dates.mapIdx (fun i d =>
            [d, toFixed2 (prophet.getD i 0), toFixed2 (ebm.getD i 0)])
      ∧ ((parseCsv s).drop 1).map (fun r => r.getD 0 []) = dates
      ∧ ((parseCsv s).drop 1).map (fun r => parseFixed2 (r.getD 1 []))
          = prophet.map rounded2
      ∧ ((parseCsv s).drop 1).map (fun r => parseFixed2 (r.getD 2 []))
          = ebm.map rounded2 := by
  have hguard : ¬(prophet.length < dates.length ∨ ebm.length < dates.length) := by
    omega
  have hnoNl : ∀ r ∈ (joinSep ',' csvHeader ::
      dates.mapIdx (fun i d =>
        joinSep ',' [d, toFixed2 (prophet.getD i 0), toFixed2 (ebm.getD i 0)])),
      '\n' ∉ r := by
    intro r hr
    rcases List.mem_cons.mp hr with rfl | hr2
    · decide
    · obtain ⟨i, d, hd, rfl⟩ := mem_of_mem_mapIdx _ _ _ hr2
      intro hnl
      rcases mem_joinSep ',' _ '\n' hnl with h | ⟨l, hl, hxl⟩
      · exact absurd h (by decide)
      · rcases List.mem_cons.mp hl with rfl | hl2
        · exact (hdates _ hd).2 hxl
        · rcases List.mem_cons.mp hl2 with rfl | hl3
          · exact newline_not_mem_toFixed2 _ hxl
          · rcases List.mem_singleton.mp hl3 with rfl
            exact newline_not_mem_toFixed2 _ hxl
  have hsplitNl : splitSep '\n' (joinSep '\n' (joinSep ',' csvHeader ::
      dates.mapIdx (fun i d =>
        joinSep ',' [d, toFixed2 (prophet.getD i 0), toFixed2 (ebm.getD i 0)])))
      = joinSep ',' csvHeader ::
        dates.mapIdx (fun i d =>
          joinSep ',' [d, toFixed2 (prophet.getD i 0), toFixed2 (ebm.getD i 0)]) :=
    splitSep_joinSep '\n' _ (List.cons_ne_nil _ _) hnoNl
  have hheadSplit : splitSep ',' (joinSep ',' csvHeader) = csvHeader := by
    apply splitSep_joinSep
    · simp [csvHeader]
    · decide
  have hdataSplit : ∀ (i : ℕ) (d : List Char), d ∈ dates →
      splitSep ','
          (joinSep ',' [d, toFixed2 (prophet.getD i 0), toFixed2 (ebm.getD i 0)])
        = [d, toFixed2 (prophet.getD i 0), toFixed2 (ebm.getD i 0)] := by
    intro i d hd
    apply splitSep_joinSep
    · simp
    · intro l hl
      rcases List.mem_cons.mp hl with rfl | hl2
      · exact (hdates _ hd).1
      · rcases List.mem_cons.mp hl2 with rfl | hl3
        · exact comma_not_mem_toFixed2 _
        · rcases List.mem_singleton.mp hl3 with rfl
          exact comma_not_mem_toFixed2 _
  have hparse : parseCsv (joinSep '\n' (joinSep ',' csvHeader ::
      dates.mapIdx (fun i d =>
        joinSep ',' [d, toFixed2 (prophet.getD i 0), toFixed2 (ebm.getD i 0)])))
      = csvHeader :: dates.mapIdx (fun i d =>
          [d, toFixed2 (prophet.getD i 0), toFixed2 (ebm.getD i 0)]) := by
    unfold parseCsv
    rw [hsplitNl, List.map_cons, hheadSplit, mapIdx_map_comp]
    exact congrArg (csvHeader :: ·)
      (mapIdx_congr_mem _ _ _ (fun i d hd => hdataSplit i d hd))
  refine ⟨_, ?_, hparse, ?_, ?_, ?_⟩
  · unfold exportToCSV
    rw [if_neg hguard]
  · rw [hparse]
    simp only [List.drop_succ_cons, List.drop_zero]
    rw [mapIdx_map_comp]
    exact (mapIdx_congr_mem _ _ _ (fun i a _ => rfl)).trans (mapIdx_id_eq dates)
  · rw [hparse]
    simp only [List.drop_succ_cons, List.drop_zero]
    rw [mapIdx_map_comp, ← mapIdx_getD_map rounded2 (0 : ℚ) dates prophet hlenP.symm]
    exact mapIdx_congr_mem _ _ _ (fun i a _ => parseFixed2_toFixed2 _)
  · rw [hparse]
    simp only [List.drop_succ_cons, List.drop_zero]
    rw [mapIdx_map_comp, ← mapIdx_getD_map rounded2 (0 : ℚ) dates ebm hlenE.symm]
    exact mapIdx_congr_mem _ _ _ (fun i a _ => parseFixed2_toFixed2 _)

/-- Witness for `c7_csv_roundtrip` on a one-row bundle. -/
theorem c7_csv_roundtrip_witness :
    ∃ s, exportToCSV [("2024-01-01").toList] [3/2] [2] = some s
      ∧ parseCsv s = csvHeader ::
          ([("2024-01-01").toList].mapIdx (fun i d =>
            [d, toFixed2 (([3/2] : List ℚ).getD i 0),
              toFixed2 (([2] : List ℚ).getD i 0)]))
      ∧ ((parseCsv s).drop 1).map (fun r => r.getD 0 []) = [("2024-01-01").toList]
      ∧ ((parseCsv s).drop 1).map (fun r => parseFixed2 (r.getD 1 []))
          = ([3/2] : List ℚ).map rounded2
      ∧ ((parseCsv s).drop 1).map (fun r => parseFixed2 (r.getD 2 []))
          = ([2] : List ℚ).map rounded2 :=
  c7_csv_roundtrip [("2024-01-01").toList] [3/2] [2] rfl rfl (by decide)

end MLForecast
